import Mathlib

/-!
Verification of the validation core of `src/ospeople/models/people.py`.

The Python source declares pydantic (v1) models; the shallow embedding below
translates each model into a Lean structure together with an executable
validation function that follows the pydantic v1 semantics the source relies
on:

* a field with no default is required: an unsupplied value yields the error
  "field required" and the field is absent from the validated values;
* a field with a default that is not supplied takes the default and its
  validators are skipped (all validators in the source use the default
  `always=False`);
* a supplied value is run through the validators attached to the field, in
  the order they are defined in the class body; the first failure produces
  the error for that field;
* validation failures are collected per field into an aggregated report, in
  field declaration order;
* a post `@root_validator` (the default `pre=False, skip_on_failure=False`)
  runs after the field pass, even when some field produced an error; the
  validated values of failed fields are absent from the `values` mapping;
* a `ValueError` raised by a validator becomes a validation error, while any
  other exception (for example `AttributeError`) propagates out of
  validation uncaught.

Values coming from raw input are modelled as `Option`-typed fields of a
`Raw...` structure (`none` = key absent from the raw mapping).
-/

deriving instance DecidableEq for Except

namespace OSPeople

/-- Exceptions a validator body can raise.  pydantic v1 turns a `ValueError`
into a validation error; an `AttributeError` is not caught and aborts the
whole validation. -/
inductive PyErr where
  | valueError (msg : String)
  | attributeError (msg : String)
deriving DecidableEq, Repr

/-- One entry of an aggregated validation error report: the location of the
offending field (a path, for nested records) and the message. -/
structure FieldError where
  loc : List String
  msg : String
deriving DecidableEq, Repr

/-- Outcome of validating one record: a typed record, an aggregated error
report, or an uncaught exception escaping the validation machinery. -/
inductive VOutcome (α : Type) where
  | ok (val : α)
  | invalid (report : List FieldError)
  | crash (exc : String)
deriving DecidableEq, Repr

/-- Modelled from the spec: `validate_str_no_newline` is imported from
`.common`, which is not part of the sources; the spec defines it as failing
exactly when the string contains a newline or carriage return (the message
text is not fixed by the spec). -/
def validate_str_no_newline (val : String) : Except String String :=
  if ('\n' ∈ val.data ∨ '\r' ∈ val.data) then .error "contains newline"
  else .ok val

/-- Modelled from the spec: the fuzzy-date grammar of `.common` accepts the
empty string, a bare year YYYY, a year-month YYYY-MM, or a full date
YYYY-MM-DD. -/
def fuzzyDateOk (val : String) : Bool :=
  let l := val.data
  l.isEmpty ||
  (l.length = 4 && l.all Char.isDigit) ||
  (l.length = 7 && (l.take 4).all Char.isDigit && l.get? 4 = some '-'
    && (l.drop 5).all Char.isDigit) ||
  (l.length = 10 && (l.take 4).all Char.isDigit && l.get? 4 = some '-'
    && ((l.drop 5).take 2).all Char.isDigit && l.get? 7 = some '-'
    && (l.drop 8).all Char.isDigit)

/-- Modelled from the spec: `validate_fuzzy_date` from `.common`. -/
def validate_fuzzy_date (val : String) : Except String String :=
  if fuzzyDateOk val then .ok val else .error "invalid fuzzy date"

/-- Modelled from the spec: the validators `validate_ocd_person`,
`validate_ocd_jurisdiction` and `validate_url` of `.common` check opaque
external grammars the spec does not define, and the `Link`, `OtherName` and
`OtherIdentifier` sub-records of `.common` are likewise absent from the
sources.  They are bundled as collaborator-supplied functions; theorems
quantify over this bundle.  The three sub-record validators take the raw
sub-record (modelled as an opaque payload string) and return its error
report. -/
structure Externals where
  validate_ocd_person : String → Except String String
  validate_ocd_jurisdiction : String → Except String String
  validate_url : String → Except String String
  linkErrors : String → List FieldError
  otherNameErrors : String → List FieldError
  otherIdentifierErrors : String → List FieldError

/-- a trivial collaborator bundle: every opaque external grammar accepts. -/
def extTrivial : Externals :=
  ⟨fun s => .ok s, fun s => .ok s, fun s => .ok s, fun _ => [], fun _ => [], fun _ => []⟩

/-! ### Enums (`RoleType`, `OfficeType`) -/

/-- `class RoleType(str, Enum)` of the source. -/
inductive RoleType where
  | UPPER
  | LOWER
  | JOINT
  | GOVERNOR
  | LT_GOVERNOR
  | MAYOR
  | SOS
  | CHIEF_ELECTION_OFFICER
deriving DecidableEq, Repr

/-- the display string of each `RoleType` member. -/
def RoleType.value : RoleType → String
  | .UPPER => "upper"
  | .LOWER => "lower"
  | .JOINT => "legislature"
  | .GOVERNOR => "governor"
  | .LT_GOVERNOR => "lt_governor"
  | .MAYOR => "mayor"
  | .SOS => "secretary of state"
  | .CHIEF_ELECTION_OFFICER => "chief election officer"

/-- pydantic parses a raw value into a str-enum by matching the member
values. -/
def RoleType.parse (s : String) : Option RoleType :=
  if s = "upper" then some .UPPER
  else if s = "lower" then some .LOWER
  else if s = "legislature" then some .JOINT
  else if s = "governor" then some .GOVERNOR
  else if s = "lt_governor" then some .LT_GOVERNOR
  else if s = "mayor" then some .MAYOR
  else if s = "secretary of state" then some .SOS
  else if s = "chief election officer" then some .CHIEF_ELECTION_OFFICER
  else none

/-- `class OfficeType(str, Enum)` of the source: its only members are
DISTRICT, CAPITOL and PRIMARY. -/
inductive OfficeType where
  | DISTRICT
  | CAPITOL
  | PRIMARY
deriving DecidableEq, Repr

/-- the display string of each `OfficeType` member. -/
def OfficeType.value : OfficeType → String
  | .DISTRICT => "District Office"
  | .CAPITOL => "Capitol Office"
  | .PRIMARY => "Primary Office"

/-- pydantic enum parsing for `OfficeType`. -/
def OfficeType.parse (s : String) : Option OfficeType :=
  if s = "District Office" then some .DISTRICT
  else if s = "Capitol Office" then some .CAPITOL
  else if s = "Primary Office" then some .PRIMARY
  else none

/-- Attribute access `OfficeType.<name>` on the enum class: only the three
declared members exist; any other name raises `AttributeError(name)` via the
enum metaclass. -/
def OfficeType.pyattr : String → Except PyErr OfficeType
  | "DISTRICT" => .ok .DISTRICT
  | "CAPITOL" => .ok .CAPITOL
  | "PRIMARY" => .ok .PRIMARY
  | n => .error (.attributeError n)

/-! ### `PHONE_RE` — `^(1-)?\d{3}-\d{3}-\d{4}( ext. \d+)?$`

The matcher transliterates the compiled pattern under Python `re`
semantics: `\d` consumes one digit, the unescaped `.` after `ext` consumes
any single character except a newline, and `$` matches at the end of the
string or just before a single trailing newline.  The pattern is
deterministic (no alternative needs backtracking: after `\d+` only the end
of the string or a newline may follow, and neither is a digit), so a greedy
one-pass matcher decides it exactly. -/

/-- consume exactly `n` digits (`\d{n}`). -/
def takeDigits : Nat → List Char → Option (List Char)
  | 0, l => some l
  | _ + 1, [] => none
  | n + 1, c :: l => if c.isDigit then takeDigits n l else none

/-- consume one given literal character. -/
def expectChar (c : Char) : List Char → Option (List Char)
  | [] => none
  | x :: l => if x = c then some l else none

/-- consume one or more digits, greedily (`\d+`). -/
def takeDigits1 : List Char → Option (List Char)
  | [] => none
  | c :: l => if c.isDigit then some (l.dropWhile Char.isDigit) else none

/-- Python `$`: the end of the string, or just before a trailing newline. -/
def atLineEnd (l : List Char) : Bool :=
  decide (l = [] ∨ l = ['\n'])

/-- an unescaped `.` in the pattern: consume any one character except a
newline, returning it with the rest. -/
def takeAnyChar : List Char → Option (Char × List Char)
  | [] => none
  | c :: l => if c = '\n' then none else some (c, l)

/-- the tail `( ext. \d+)?$` of `PHONE_RE`; the `.` of the source pattern is
unescaped, hence matches any character except a newline. -/
def phoneExtTail (l : List Char) : Bool :=
  atLineEnd l ||
  (match expectChar ' ' l with
   | none => false
   | some l1 =>
     match expectChar 'e' l1 with
     | none => false
     | some l2 =>
       match expectChar 'x' l2 with
       | none => false
       | some l3 =>
         match expectChar 't' l3 with
         | none => false
         | some l4 =>
           match takeAnyChar l4 with
           | none => false
           | some cl5 =>
             match expectChar ' ' cl5.2 with
             | none => false
             | some l6 =>
               match takeDigits1 l6 with
               | none => false
               | some l7 => atLineEnd l7)

/-- the body `\d{3}-\d{3}-\d{4}( ext. \d+)?$` of `PHONE_RE`. -/
def phoneBody (l : List Char) : Bool :=
  match takeDigits 3 l with
  | none => false
  | some l1 =>
    match expectChar '-' l1 with
    | none => false
    | some l2 =>
      match takeDigits 3 l2 with
      | none => false
      | some l3 =>
        match expectChar '-' l3 with
        | none => false
        | some l4 =>
          match takeDigits 4 l4 with
          | none => false
          | some l5 => phoneExtTail l5

/-- `PHONE_RE.match(val)` of the source: `^(1-)?\d{3}-\d{3}-\d{4}( ext. \d+)?$`. -/
def PHONE_RE_match (val : String) : Bool :=
  (match expectChar '1' val.data with
   | none => false
   | some l1 =>
     match expectChar '-' l1 with
     | none => false
     | some l2 => phoneBody l2) ||
  phoneBody val.data

/-- `validate_phone` of the source. -/
def validate_phone (val : String) : Except String String :=
  if PHONE_RE_match val then .ok val else .error "invalid phone number"

/-! ### `SUFFIX_RE` — `(iii?)|(i?v)|((ed|ph|m|o)\.?d\.?)|([sj]r\.?)|(esq\.?)`, `re.I`

`SUFFIX_RE.findall(x)` is non-empty exactly when some alternative of the
pattern matches at some position of `x`.  Every alternative denotes a finite
set of strings, expanded below: `iii?` gives ii, iii; `i?v` gives v, iv;
`(ed|ph|m|o)\.?d\.?` gives one of ed/ph/m/o, an optional dot, `d`, an
optional dot; `[sj]r\.?` gives sr, jr with an optional dot; `esq\.?` gives
esq with an optional dot.  `re.I` is modelled by lowercasing (the source
data is ASCII). -/
def SUFFIX_WORDS : List (List Char) :=
  [['i', 'i'], ['i', 'i', 'i'],
   ['v'], ['i', 'v'],
   ['e', 'd', 'd'], ['e', 'd', 'd', '.'], ['e', 'd', '.', 'd'], ['e', 'd', '.', 'd', '.'],
   ['p', 'h', 'd'], ['p', 'h', 'd', '.'], ['p', 'h', '.', 'd'], ['p', 'h', '.', 'd', '.'],
   ['m', 'd'], ['m', 'd', '.'], ['m', '.', 'd'], ['m', '.', 'd', '.'],
   ['o', 'd'], ['o', 'd', '.'], ['o', '.', 'd'], ['o', '.', 'd', '.'],
   ['s', 'r'], ['s', 'r', '.'], ['j', 'r'], ['j', 'r', '.'],
   ['e', 's', 'q'], ['e', 's', 'q', '.']]

/-- `SUFFIX_RE.findall(t) != []`: some alternative matches at some position
of `t`, case-insensitively. -/
def suffixFindall : List Char → Bool
  | [] => false
  | c :: rest =>
    SUFFIX_WORDS.any (fun w => w.isPrefixOf ((c :: rest).map Char.toLower)) ||
    suffixFindall rest

/-- `Person.no_bad_comma` of the source: split the name on commas; more than
one comma is an error, exactly one comma requires a suffix-grammar match in
the part after the comma. -/
def splitComma : List Char → List (List Char)
  | [] => [[]]
  | c :: rest =>
    if c = ',' then [] :: splitComma rest
    else
      match splitComma rest with
      | [] => [[c]]
      | p :: ps => (c :: p) :: ps

/-- the validator body of `Person.no_bad_comma`. -/
def no_bad_comma (val : String) : Except String String :=
  let pieces := splitComma val.data
  if pieces.length > 2 then .error "too many commas, check if name is mangled"
  else if pieces.length = 2 ∧ suffixFindall (pieces.getD 1 []) = false then
    .error "invalid comma"
  else .ok val

/-- Python `val.startswith(p)`. -/
def pyStartswith (p val : String) : Bool :=
  p.data.isPrefixOf val.data

/-- `PersonIdBlock.validate_social` of the source: no newline, and the value
must not start with a URL scheme or `@`. -/
def validate_social (val : String) : Except String String :=
  match validate_str_no_newline val with
  | .error e => .error e
  | .ok _ =>
    if pyStartswith "http://" val ∨ pyStartswith "https://" val ∨ pyStartswith "@" val then
      .error "invalid social media account name, drop URL or @"
    else .ok val

/-! ### Field machinery (pydantic v1 semantics) -/

/-- run the validators attached to a field, in definition order; the first
failure is the error of the field. -/
def runValidators (v : String) : List (String → Except String String) → Except String String
  | [] => .ok v
  | f :: fs =>
    match f v with
    | .ok v2 => runValidators v2 fs
    | .error m => .error m

/-- a string field with a default: an unsupplied value takes the default and
skips the validators (`always=False`); a supplied value runs them.  Returns
the validated value (absent on failure, as in pydantic `values`) and the
errors of the field. -/
def checkStrField (fname : String) (dflt : String)
    (vs : List (String → Except String String)) :
    Option String → Option String × List FieldError
  | none => (some dflt, [])
  | some v =>
    match runValidators v vs with
    | .ok v2 => (some v2, [])
    | .error m => (none, [⟨[fname], m⟩])

/-- a required string field: an unsupplied value is the error
"field required"; a supplied value runs the validators. -/
def checkReqStrField (fname : String)
    (vs : List (String → Except String String)) :
    Option String → Option String × List FieldError
  | none => (none, [⟨[fname], "field required"⟩])
  | some v =>
    match runValidators v vs with
    | .ok v2 => (some v2, [])
    | .error m => (none, [⟨[fname], m⟩])

/-! ### `PersonIdBlock` -/

/-- raw input for `PersonIdBlock`; every field defaults to the empty
string. -/
structure RawPersonIdBlock where
  twitter : Option String := none
  youtube : Option String := none
  instagram : Option String := none
  facebook : Option String := none
deriving DecidableEq, Repr

/-- the validated `PersonIdBlock`. -/
structure PersonIdBlock where
  twitter : String
  youtube : String
  instagram : String
  facebook : String
deriving DecidableEq, Repr

/-- validation of `PersonIdBlock`: `validator("*")` attaches
`validate_social` to each of the four fields. -/
def PersonIdBlock.validate (raw : RawPersonIdBlock) : VOutcome PersonIdBlock :=
  let twR := checkStrField "twitter" "" [validate_social] raw.twitter
  let ytR := checkStrField "youtube" "" [validate_social] raw.youtube
  let igR := checkStrField "instagram" "" [validate_social] raw.instagram
  let fbR := checkStrField "facebook" "" [validate_social] raw.facebook
  let report := twR.2 ++ ytR.2 ++ igR.2 ++ fbR.2
  if report = [] then
    .ok ⟨twR.1.getD "", ytR.1.getD "", igR.1.getD "", fbR.1.getD ""⟩
  else .invalid report

/-! ### `Party` -/

/-- raw input for `Party`; `start_date`/`end_date` come from the spec-
modelled `TimeScoped` base (defaults to the empty string, fuzzy-date
validated), `name` is required. -/
structure RawParty where
  start_date : Option String := none
  end_date : Option String := none
  name : Option String := none
deriving DecidableEq, Repr

/-- the validated `Party`. -/
structure Party where
  start_date : String
  end_date : String
  name : String
deriving DecidableEq, Repr

/-- validation of `Party`: inherited `TimeScoped` dates, then `name` with
`validate_str_no_newline`. -/
def Party.validate (raw : RawParty) : VOutcome Party :=
  let sdR := checkStrField "start_date" "" [validate_fuzzy_date] raw.start_date
  let edR := checkStrField "end_date" "" [validate_fuzzy_date] raw.end_date
  let nmR := checkReqStrField "name" [validate_str_no_newline] raw.name
  let report := sdR.2 ++ edR.2 ++ nmR.2
  if report = [] then .ok ⟨sdR.1.getD "", edR.1.getD "", nmR.1.getD ""⟩
  else .invalid report

/-! ### `Role` -/

/-- raw input for `Role`. -/
structure RawRole where
  start_date : Option String := none
  end_date : Option String := none
  type : Option String := none
  district : Option String := none
  jurisdiction : Option String := none
  end_reason : Option String := none
deriving DecidableEq, Repr

/-- the validated `Role`. -/
structure Role where
  start_date : String
  end_date : String
  type : RoleType
  district : String
  jurisdiction : String
  end_reason : String
deriving DecidableEq, Repr

/-- the `values` mapping a `Role` root validator receives: each field is
present only when its own validation passed. -/
structure RoleValues where
  start_date : Option String
  end_date : Option String
  type : Option RoleType
  district : Option String
  jurisdiction : Option String
  end_reason : Option String
deriving DecidableEq, Repr

/-- the required enum field `type` of `Role`. -/
def checkRoleTypeField : Option String → Option RoleType × List FieldError
  | none => (none, [⟨["type"], "field required"⟩])
  | some v =>
    match RoleType.parse v with
    | some t => (some t, [])
    | none => (none, [⟨["type"], "value is not a valid enumeration member"⟩])

/-- the field pass of `Role` validation, in field declaration order
(inherited `TimeScoped` fields first). -/
def Role.fieldStage (raw : RawRole) (ext : Externals) :
    RoleValues × List FieldError :=
  let sdR := checkStrField "start_date" "" [validate_fuzzy_date] raw.start_date
  let edR := checkStrField "end_date" "" [validate_fuzzy_date] raw.end_date
  let tyR := checkRoleTypeField raw.type
  let diR := checkReqStrField "district" [validate_str_no_newline] raw.district
  let juR := checkReqStrField "jurisdiction" [ext.validate_ocd_jurisdiction] raw.jurisdiction
  let erR := checkReqStrField "end_reason" [validate_str_no_newline] raw.end_reason
  (⟨sdR.1, edR.1, tyR.1, diR.1, juR.1, erR.1⟩,
   sdR.2 ++ edR.2 ++ tyR.2 ++ diR.2 ++ juR.2 ++ erR.2)

/-- `Role.check_executives_have_end_date` of the source, transliterated:
the membership tuple is built from attribute lookups on `OfficeType`
(`OfficeType.GOVERNOR`, ..., `OfficeType.SOS` as written in the source), in
left-to-right order; a failing lookup raises before the condition is
evaluated.  str-enum membership compares display strings.  `not end_date`
is Python falsiness: `None` or the empty string. -/
def check_executives_have_end_date (values : RoleValues) : Except PyErr RoleValues :=
  let office_type := values.type
  let end_date := values.end_date
  match OfficeType.pyattr "GOVERNOR" with
  | .error e => .error e
  | .ok g =>
    match OfficeType.pyattr "LT_GOVERNOR" with
    | .error e => .error e
    | .ok lg =>
      match OfficeType.pyattr "MAYOR" with
      | .error e => .error e
      | .ok m =>
        match OfficeType.pyattr "CHIEF_ELECTION_OFFICER" with
        | .error e => .error e
        | .ok ceo =>
          match OfficeType.pyattr "SOS" with
          | .error e => .error e
          | .ok sos =>
            if (office_type.any fun t =>
                  [g, lg, m, ceo, sos].any fun o => t.value == o.value) ∧
                end_date.getD "" = "" then
              .error (.valueError "end_date is required for executive roles")
            else .ok values

/-- full `Role` validation: the field pass, then the post root validator,
which pydantic v1 runs even when the field pass failed
(`skip_on_failure=False`); a `ValueError` from it is appended to the report
under `__root__`, any other exception aborts validation. -/
def Role.validate (raw : RawRole) (ext : Externals) : VOutcome Role :=
  let vs := (Role.fieldStage raw ext).1
  let report := (Role.fieldStage raw ext).2
  match check_executives_have_end_date vs with
  | .error (.attributeError m) => .crash m
  | .error (.valueError m) => .invalid (report ++ [⟨["__root__"], m⟩])
  | .ok _ =>
    if report = [] then
      .ok ⟨vs.start_date.getD "", vs.end_date.getD "", vs.type.getD .UPPER,
           vs.district.getD "", vs.jurisdiction.getD "", vs.end_reason.getD ""⟩
    else .invalid report

/-! ### `ContactDetail` -/

/-- raw input for `ContactDetail`. -/
structure RawContactDetail where
  note : Option String := none
  address : Option String := none
  voice : Option String := none
  fax : Option String := none
deriving DecidableEq, Repr

/-- the validated `ContactDetail`. -/
structure ContactDetail where
  note : OfficeType
  address : String
  voice : String
  fax : String
deriving DecidableEq, Repr

/-- the required enum field `note` of `ContactDetail`. -/
def checkNoteField : Option String → Option OfficeType × List FieldError
  | none => (none, [⟨["note"], "field required"⟩])
  | some v =>
    match OfficeType.parse v with
    | some t => (some t, [])
    | none => (none, [⟨["note"], "value is not a valid enumeration member"⟩])

/-- validation of `ContactDetail`: `validate_phone` is attached to `voice`
and `fax`, so it runs exactly on supplied values (the default empty string
is not validated). -/
def ContactDetail.validate (raw : RawContactDetail) : VOutcome ContactDetail :=
  let ntR := checkNoteField raw.note
  let adR := checkStrField "address" "" [validate_str_no_newline] raw.address
  let voR := checkStrField "voice" "" [validate_phone] raw.voice
  let fxR := checkStrField "fax" "" [validate_phone] raw.fax
  let report := ntR.2 ++ adR.2 ++ voR.2 ++ fxR.2
  if report = [] then
    .ok ⟨ntR.1.getD .DISTRICT, adR.1.getD "", voR.1.getD "", fxR.1.getD ""⟩
  else .invalid report

/-! ### `Person` -/

/-- raw input for `Person`, one `Option` per field of the source model; the
sub-records of `.common` (`Link`, `OtherName`, `OtherIdentifier`) are
modelled as opaque payload strings validated by the `Externals` bundle, and
`extras` is an unvalidated passthrough mapping. -/
structure RawPerson where
  id : Option String := none
  name : Option String := none
  given_name : Option String := none
  family_name : Option String := none
  middle_name : Option String := none
  suffix : Option String := none
  gender : Option String := none
  email : Option String := none
  biography : Option String := none
  birth_date : Option String := none
  death_date : Option String := none
  image : Option String := none
  party : Option (List RawParty) := none
  roles : Option (List RawRole) := none
  contact_details : Option (List RawContactDetail) := none
  links : Option (List String) := none
  other_names : Option (List String) := none
  ids : Option (Option RawPersonIdBlock) := none
  other_identifiers : Option (List String) := none
  sources : Option (List String) := none
  extras : Option (List (String × String)) := none

/-- the validated `Person`. -/
structure Person where
  id : String
  name : String
  given_name : String
  family_name : String
  middle_name : String
  suffix : String
  gender : String
  email : String
  biography : String
  birth_date : String
  death_date : String
  image : String
  party : List Party
  roles : List Role
  contact_details : List ContactDetail
  links : List String
  other_names : List String
  ids : Option PersonIdBlock
  other_identifiers : List String
  sources : List String
  extras : List (String × String)

/-- a sub-record of `.common` validated by a collaborator function. -/
def extStrModel (errs : String → List FieldError) (s : String) : VOutcome String :=
  match errs s with
  | [] => .ok s
  | r => .invalid r

/-- validate the elements of a list field one by one, prefixing each error
location with the field name and the element index; later elements are
still validated after a failed one, but an uncaught exception aborts
immediately (later elements are not reached). -/
def elemwiseAux {α β : Type} (fname : String) (f : α → VOutcome β) :
    Nat → List α → Except String (List β × List FieldError)
  | _, [] => .ok ([], [])
  | i, x :: xs =>
    match f x with
    | .crash m => .error m
    | .ok b =>
      match elemwiseAux fname f (i + 1) xs with
      | .error m => .error m
      | .ok (bs, es) => .ok (b :: bs, es)
    | .invalid r =>
      match elemwiseAux fname f (i + 1) xs with
      | .error m => .error m
      | .ok (bs, es) =>
        .ok (bs, (r.map fun fe => ⟨fname :: toString i :: fe.loc, fe.msg⟩) ++ es)

/-- a required list field (`party`, `roles`). -/
def reqListField {α β : Type} (fname : String) (f : α → VOutcome β) :
    Option (List α) → Except String (Option (List β) × List FieldError)
  | none => .ok (none, [⟨[fname], "field required"⟩])
  | some xs =>
    match elemwiseAux fname f 0 xs with
    | .error m => .error m
    | .ok (bs, es) => .ok (some bs, es)

/-- a list field with default `[]`. -/
def dfltListField {α β : Type} (fname : String) (f : α → VOutcome β) :
    Option (List α) → Except String (Option (List β) × List FieldError)
  | none => .ok (some [], [])
  | some xs =>
    match elemwiseAux fname f 0 xs with
    | .error m => .error m
    | .ok (bs, es) => .ok (some bs, es)

/-- the `ids: Optional[PersonIdBlock] = None` field. -/
def idsField : Option (Option RawPersonIdBlock) →
    Except String (Option PersonIdBlock × List FieldError)
  | none => .ok (none, [])
  | some none => .ok (none, [])
  | some (some b) =>
    match PersonIdBlock.validate b with
    | .ok v => .ok (some v, [])
    | .invalid r => .ok (none, r.map fun fe => ⟨"ids" :: fe.loc, fe.msg⟩)
    | .crash m => .error m

/-- sequencing a validation step that may escape with an uncaught
exception. -/
def exStep {γ δ : Type} (e : Except String γ) (k : γ → Except String δ) :
    Except String δ :=
  match e with
  | .error m => .error m
  | .ok v => k v

/-- full `Person` validation up to the final verdict: the validated record
together with the aggregated report, or an uncaught exception.  Fields are
processed in declaration order. -/
def Person.run (raw : RawPerson) (ext : Externals) :
    Except String (Person × List FieldError) :=
  let idR := checkReqStrField "id" [ext.validate_ocd_person] raw.id
  let nameR := checkReqStrField "name" [no_bad_comma, validate_str_no_newline] raw.name
  let gnR := checkStrField "given_name" "" [validate_str_no_newline] raw.given_name
  let fnR := checkStrField "family_name" "" [validate_str_no_newline] raw.family_name
  let mnR := checkStrField "middle_name" "" [validate_str_no_newline] raw.middle_name
  let sfR := checkStrField "suffix" "" [validate_str_no_newline] raw.suffix
  let gdR := checkStrField "gender" "" [validate_str_no_newline] raw.gender
  let emR := checkStrField "email" "" [validate_str_no_newline] raw.email
  let bioR := checkStrField "biography" "" [] raw.biography
  let bdR := checkStrField "birth_date" "" [validate_fuzzy_date] raw.birth_date
  let ddR := checkStrField "death_date" "" [validate_fuzzy_date] raw.death_date
  let imR := checkStrField "image" "" [ext.validate_url] raw.image
  exStep (reqListField "party" Party.validate raw.party) fun pr =>
  exStep (reqListField "roles" (fun r => Role.validate r ext) raw.roles) fun rr =>
  exStep (dfltListField "contact_details" ContactDetail.validate raw.contact_details) fun cr =>
  exStep (dfltListField "links" (extStrModel ext.linkErrors) raw.links) fun lr =>
  exStep (dfltListField "other_names" (extStrModel ext.otherNameErrors) raw.other_names) fun onr =>
  exStep (idsField raw.ids) fun idsr =>
  exStep (dfltListField "other_identifiers" (extStrModel ext.otherIdentifierErrors) raw.other_identifiers) fun oir =>
  exStep (dfltListField "sources" (extStrModel ext.linkErrors) raw.sources) fun srcr =>
  let report := idR.2 ++ nameR.2 ++ gnR.2 ++ fnR.2 ++ mnR.2 ++ sfR.2 ++ gdR.2 ++
    emR.2 ++ bioR.2 ++ bdR.2 ++ ddR.2 ++ imR.2 ++ pr.2 ++ rr.2 ++ cr.2 ++ lr.2 ++
    onr.2 ++ idsr.2 ++ oir.2 ++ srcr.2
  .ok (⟨idR.1.getD "", nameR.1.getD "", gnR.1.getD "", fnR.1.getD "", mnR.1.getD "",
        sfR.1.getD "", gdR.1.getD "", emR.1.getD "", bioR.1.getD "", bdR.1.getD "",
        ddR.1.getD "", imR.1.getD "", pr.1.getD [], rr.1.getD [], cr.1.getD [],
        lr.1.getD [], onr.1.getD [], idsr.1, oir.1.getD [], srcr.1.getD [],
        raw.extras.getD []⟩, report)

/-- full `Person` validation. -/
def Person.validate (raw : RawPerson) (ext : Externals) : VOutcome Person :=
  match Person.run raw ext with
  | .error m => .crash m
  | .ok pr => if pr.2 = [] then .ok pr.1 else .invalid pr.2

/-! ### Claim-side formalisations

The following definitions state grammars the way the claims state them, to
be compared with the matchers embedded from the source. -/

/-- the phone grammar exactly as claim C6 states it:
`^(1-)?\d{3}-\d{3}-\d{4}( ext\. \d+)?$` with a literal dot after `ext` and
`$` as the end of the string. -/
def claimExtTail (l : List Char) : Bool :=
  l.isEmpty ||
  (match expectChar ' ' l with
   | none => false
   | some l1 =>
     match expectChar 'e' l1 with
     | none => false
     | some l2 =>
       match expectChar 'x' l2 with
       | none => false
       | some l3 =>
         match expectChar 't' l3 with
         | none => false
         | some l4 =>
           match expectChar '.' l4 with
           | none => false
           | some l5 =>
             match expectChar ' ' l5 with
             | none => false
             | some l6 =>
               match takeDigits1 l6 with
               | none => false
               | some l7 => l7.isEmpty)

/-- the body of the claimed phone grammar. -/
def claimPhoneBody (l : List Char) : Bool :=
  match takeDigits 3 l with
  | none => false
  | some l1 =>
    match expectChar '-' l1 with
    | none => false
    | some l2 =>
      match takeDigits 3 l2 with
      | none => false
      | some l3 =>
        match expectChar '-' l3 with
        | none => false
        | some l4 =>
          match takeDigits 4 l4 with
          | none => false
          | some l5 => claimExtTail l5

/-- the full phone grammar claimed by C6 (literal dot). -/
def phoneClaimGrammar (val : String) : Bool :=
  (match expectChar '1' val.data with
   | none => false
   | some l1 =>
     match expectChar '-' l1 with
     | none => false
     | some l2 => claimPhoneBody l2) ||
  claimPhoneBody val.data

/-- all characters are digits. -/
def allDigits (l : List Char) : Prop := ∀ c ∈ l, c.isDigit = true

/-- structural description of the strings accepted by the source pattern
`^(1-)?\d{3}-\d{3}-\d{4}( ext. \d+)?$` under Python semantics: the
unescaped dot matches any character except a newline, and `$` also matches
just before one trailing newline. -/
def PhoneAmendedSpec (s : String) : Prop :=
  ∃ pre a b c ext tail : List Char,
    s.data = pre ++ a ++ ['-'] ++ b ++ ['-'] ++ c ++ ext ++ tail ∧
    (pre = [] ∨ pre = ['1', '-']) ∧
    a.length = 3 ∧ allDigits a ∧
    b.length = 3 ∧ allDigits b ∧
    c.length = 4 ∧ allDigits c ∧
    (ext = [] ∨ ∃ (d : Char) (ds : List Char),
      ext = [' ', 'e', 'x', 't', d, ' '] ++ ds ∧ d ≠ '\n' ∧ ds ≠ [] ∧ allDigits ds) ∧
    (tail = [] ∨ tail = ['\n'])

/-- structural description of the tail accepted by `phoneExtTail`. -/
def ExtTailSpec (l : List Char) : Prop :=
  ∃ ext tail : List Char,
    l = ext ++ tail ∧
    (ext = [] ∨ ∃ (d : Char) (ds : List Char),
      ext = [' ', 'e', 'x', 't', d, ' '] ++ ds ∧ d ≠ '\n' ∧ ds ≠ [] ∧ allDigits ds) ∧
    (tail = [] ∨ tail = ['\n'])

/-- structural description of the lists accepted by `phoneBody`. -/
def PhoneBodySpec (l : List Char) : Prop :=
  ∃ a b c rest : List Char,
    l = a ++ ['-'] ++ b ++ ['-'] ++ c ++ rest ∧
    a.length = 3 ∧ allDigits a ∧
    b.length = 3 ∧ allDigits b ∧
    c.length = 4 ∧ allDigits c ∧ ExtTailSpec rest

/-- the suffix grammar as claim C5 states it: some piece of the text, read
case-insensitively, is one of the alternatives of `SUFFIX_RE` (that is,
`re.findall` locates a match somewhere in the text). -/
def SuffixGrammarFound (t : List Char) : Prop :=
  ∃ pre mid post : List Char,
    t = pre ++ mid ++ post ∧ mid.map Char.toLower ∈ SUFFIX_WORDS

/-- the social-handle predicate as claim C9 states it: no newline, and the
value does not start with `http://`, `https://` or `@`. -/
def SocialClaimOk (v : String) : Prop :=
  ¬('\n' ∈ v.data ∨ '\r' ∈ v.data) ∧
  ¬(pyStartswith "http://" v ∨ pyStartswith "https://" v ∨ pyStartswith "@" v)

/-! ### Lemmas about the phone matcher -/

theorem expectChar_eq_some {c : Char} {l l2 : List Char} :
    expectChar c l = some l2 ↔ l = c :: l2 := by
  cases l with
  | nil => simp [expectChar]
  | cons x xs =>
    simp only [expectChar]
    split <;> simp_all

theorem takeDigits_sound (n : Nat) : ∀ (l l2 : List Char), takeDigits n l = some l2 →
    ∃ d : List Char, l = d ++ l2 ∧ d.length = n ∧ allDigits d := by
  induction n with
  | zero =>
    intro l l2 h
    simp only [takeDigits, Option.some.injEq] at h
    exact ⟨[], by simp [h], rfl, by simp [allDigits]⟩
  | succ n ih =>
    intro l l2 h
    cases l with
    | nil => simp [takeDigits] at h
    | cons c xs =>
      simp only [takeDigits] at h
      by_cases hc : c.isDigit = true
      · rw [if_pos hc] at h
        obtain ⟨d, hd, hlen, hdig⟩ := ih xs l2 h
        refine ⟨c :: d, by simp [hd], by simp [hlen], ?_⟩
        intro x hx
        rcases List.mem_cons.mp hx with rfl | hx
        · exact hc
        · exact hdig x hx
      · rw [if_neg hc] at h
        exact absurd h (by simp)

theorem takeDigits_complete : ∀ (d l2 : List Char), allDigits d →
    takeDigits d.length (d ++ l2) = some l2 := by
  intro d
  induction d with
  | nil => intro l2 _; simp [takeDigits]
  | cons c ds ih =>
    intro l2 hd
    have hc : c.isDigit = true := hd c (by simp)
    simp [takeDigits, hc]
    exact ih l2 (fun x hx => hd x (by simp [hx]))

theorem dropWhile_digits_append : ∀ (d t : List Char), allDigits d →
    (d ++ t).dropWhile Char.isDigit = t.dropWhile Char.isDigit := by
  intro d
  induction d with
  | nil => intro t _; simp
  | cons c ds ih =>
    intro t hd
    have hc : c.isDigit = true := hd c (by simp)
    rw [List.cons_append, List.dropWhile_cons_of_pos hc]
    exact ih t (fun x hx => hd x (by simp [hx]))

theorem takeDigits1_sound {l l2 : List Char} (h : takeDigits1 l = some l2) :
    ∃ d : List Char, l = d ++ l2 ∧ d ≠ [] ∧ allDigits d := by
  cases l with
  | nil => simp [takeDigits1] at h
  | cons c xs =>
    simp only [takeDigits1] at h
    by_cases hc : c.isDigit = true
    · rw [if_pos hc, Option.some.injEq] at h
      refine ⟨c :: xs.takeWhile Char.isDigit, ?_, by simp, ?_⟩
      · rw [List.cons_append, ← h, List.takeWhile_append_dropWhile]
      · intro x hx
        rcases List.mem_cons.mp hx with rfl | hx
        · exact hc
        · exact List.mem_takeWhile_imp hx
    · rw [if_neg hc] at h
      exact absurd h (by simp)

theorem takeDigits1_complete {d t : List Char} (hd : d ≠ []) (hdig : allDigits d)
    (ht : t = [] ∨ t = ['\n']) : takeDigits1 (d ++ t) = some t := by
  cases d with
  | nil => exact absurd rfl hd
  | cons c ds =>
    have hc : c.isDigit = true := hdig c (by simp)
    simp only [List.cons_append, takeDigits1, hc, if_true, Option.some.injEq]
    rw [dropWhile_digits_append ds t (fun x hx => hdig x (by simp [hx]))]
    rcases ht with rfl | rfl
    · simp
    · simp [List.dropWhile]

theorem atLineEnd_iff {l : List Char} : atLineEnd l = true ↔ (l = [] ∨ l = ['\n']) := by
  simp [atLineEnd]

theorem takeAnyChar_eq_some {l : List Char} {p : Char × List Char} :
    takeAnyChar l = some p ↔ l = p.1 :: p.2 ∧ p.1 ≠ '\n' := by
  cases l with
  | nil => simp [takeAnyChar]
  | cons c xs =>
    simp only [takeAnyChar]
    by_cases hc : c = '\n'
    · subst hc
      rw [if_pos rfl]
      constructor
      · intro h; simp at h
      · rintro ⟨h1, h2⟩
        injection h1 with h3 _
        exact absurd h3.symm h2
    · rw [if_neg hc]
      constructor
      · intro h
        injection h with h1
        rw [← h1]
        exact ⟨rfl, hc⟩
      · rintro ⟨h1, _⟩
        injection h1 with h2 h3
        cases p
        simp_all

theorem phoneExtTail_iff {l : List Char} : phoneExtTail l = true ↔ ExtTailSpec l := by
  constructor
  · intro h
    rw [phoneExtTail, Bool.or_eq_true] at h
    rcases h with h | h
    · exact ⟨[], l, by simp, Or.inl rfl, atLineEnd_iff.mp h⟩
    · split at h
      · simp at h
      next l1 heq1 =>
        split at h
        · simp at h
        next l2 heq2 =>
          split at h
          · simp at h
          next l3 heq3 =>
            split at h
            · simp at h
            next l4 heq4 =>
              split at h
              · simp at h
              next cl5 heq5 =>
                split at h
                · simp at h
                next l6 heq6 =>
                  split at h
                  · simp at h
                  next l7 heq7 =>
                    obtain ⟨hl4, hnl⟩ := takeAnyChar_eq_some.mp heq5
                    obtain ⟨ds, hl6, hds, hdig⟩ := takeDigits1_sound heq7
                    refine ⟨[' ', 'e', 'x', 't', cl5.1, ' '] ++ ds, l7, ?_, ?_,
                      atLineEnd_iff.mp h⟩
                    · rw [expectChar_eq_some.mp heq1, expectChar_eq_some.mp heq2,
                        expectChar_eq_some.mp heq3, expectChar_eq_some.mp heq4, hl4,
                        expectChar_eq_some.mp heq6, hl6]
                      simp
                    · right
                      exact ⟨cl5.1, ds, by simp, hnl, hds, hdig⟩
  · rintro ⟨ext, tail, rfl, hext, htail⟩
    rw [phoneExtTail, Bool.or_eq_true]
    rcases hext with rfl | ⟨d, ds, rfl, hd, hds, hdig⟩
    · left
      simp only [List.nil_append]
      exact atLineEnd_iff.mpr htail
    · right
      have h1 : takeDigits1 (ds ++ tail) = some tail := takeDigits1_complete hds hdig htail
      simp only [List.cons_append, List.nil_append, List.append_assoc]
      simp [expectChar, takeAnyChar, h1, hd, atLineEnd_iff, htail]

theorem phoneBody_iff {l : List Char} : phoneBody l = true ↔ PhoneBodySpec l := by
  constructor
  · intro h
    rw [phoneBody] at h
    split at h
    · simp at h
    next l1 heq1 =>
      split at h
      · simp at h
      next l2 heq2 =>
        split at h
        · simp at h
        next l3 heq3 =>
          split at h
          · simp at h
          next l4 heq4 =>
            split at h
            · simp at h
            next l5 heq5 =>
              obtain ⟨a, ha, halen, hadig⟩ := takeDigits_sound 3 l l1 heq1
              obtain ⟨b, hb, hblen, hbdig⟩ := takeDigits_sound 3 l2 l3 heq3
              obtain ⟨c, hc, hclen, hcdig⟩ := takeDigits_sound 4 l4 l5 heq5
              refine ⟨a, b, c, l5, ?_, halen, hadig, hblen, hbdig, hclen, hcdig,
                phoneExtTail_iff.mp h⟩
              rw [ha, expectChar_eq_some.mp heq2, hb, expectChar_eq_some.mp heq4, hc]
              simp
  · rintro ⟨a, b, c, rest, hl, halen, hadig, hblen, hbdig, hclen, hcdig, hext⟩
    have h1 : takeDigits 3 (a ++ '-' :: (b ++ '-' :: (c ++ rest))) =
        some ('-' :: (b ++ '-' :: (c ++ rest))) := by
      have h := takeDigits_complete a ('-' :: (b ++ '-' :: (c ++ rest))) hadig
      rwa [halen] at h
    have h2 : takeDigits 3 (b ++ '-' :: (c ++ rest)) = some ('-' :: (c ++ rest)) := by
      have h := takeDigits_complete b ('-' :: (c ++ rest)) hbdig
      rwa [hblen] at h
    have h3 : takeDigits 4 (c ++ rest) = some rest := by
      have h := takeDigits_complete c rest hcdig
      rwa [hclen] at h
    have hl2 : l = a ++ '-' :: (b ++ '-' :: (c ++ rest)) := by
      rw [hl]; simp
    rw [hl2]
    simp [phoneBody, h1, h2, h3, expectChar]
    exact phoneExtTail_iff.mpr hext

theorem PHONE_RE_match_iff {s : String} :
    PHONE_RE_match s = true ↔ PhoneAmendedSpec s := by
  constructor
  · intro h
    rw [PHONE_RE_match, Bool.or_eq_true] at h
    rcases h with h | h
    · split at h
      · simp at h
      next l1 heq1 =>
        split at h
        · simp at h
        next l2 heq2 =>
          obtain ⟨a, b, c, rest, hl2, halen, hadig, hblen, hbdig, hclen, hcdig, hext⟩ :=
            phoneBody_iff.mp h
          obtain ⟨ext, tail, hrt, hextd, htail⟩ := hext
          refine ⟨['1', '-'], a, b, c, ext, tail, ?_, Or.inr rfl, halen, hadig,
            hblen, hbdig, hclen, hcdig, hextd, htail⟩
          rw [expectChar_eq_some.mp heq1, expectChar_eq_some.mp heq2, hl2, hrt]
          simp
    · obtain ⟨a, b, c, rest, hl2, halen, hadig, hblen, hbdig, hclen, hcdig, hext⟩ :=
        phoneBody_iff.mp h
      obtain ⟨ext, tail, hrt, hextd, htail⟩ := hext
      refine ⟨[], a, b, c, ext, tail, ?_, Or.inl rfl, halen, hadig,
        hblen, hbdig, hclen, hcdig, hextd, htail⟩
      rw [hl2, hrt]
      simp
  · rintro ⟨pre, a, b, c, ext, tail, hs, hpre, halen, hadig, hblen, hbdig,
      hclen, hcdig, hextd, htail⟩
    rw [PHONE_RE_match, Bool.or_eq_true]
    have hbody : phoneBody (a ++ ['-'] ++ b ++ ['-'] ++ c ++ ext ++ tail) = true :=
      phoneBody_iff.mpr ⟨a, b, c, ext ++ tail, by simp, halen, hadig, hblen, hbdig,
        hclen, hcdig, ext, tail, rfl, hextd, htail⟩
    rcases hpre with rfl | rfl
    · right
      rw [show s.data = a ++ ['-'] ++ b ++ ['-'] ++ c ++ ext ++ tail by
        rw [hs]; simp]
      exact hbody
    · left
      rw [show s.data = '1' :: '-' :: (a ++ ['-'] ++ b ++ ['-'] ++ c ++ ext ++ tail) by
        rw [hs]; simp]
      simp [expectChar]
      simpa using hbody

theorem validate_phone_ok_iff {s : String} :
    validate_phone s = .ok s ↔ PHONE_RE_match s = true := by
  by_cases h : PHONE_RE_match s = true <;> simp [validate_phone, h]

/-! ### Lemmas about the suffix matcher and the comma splitter -/

theorem isPrefixOf_map_iff {w : List Char} : ∀ {l : List Char},
    w.isPrefixOf (l.map Char.toLower) = true ↔
    ∃ mid post : List Char, l = mid ++ post ∧ mid.map Char.toLower = w := by
  induction w with
  | nil =>
    intro l
    constructor
    · intro _; exact ⟨[], l, rfl, rfl⟩
    · intro _; simp [List.isPrefixOf]
  | cons a w ih =>
    intro l
    cases l with
    | nil =>
      constructor
      · intro h; simp [List.isPrefixOf] at h
      · rintro ⟨mid, post, heq, hmap⟩
        obtain ⟨h1, h2⟩ := List.append_eq_nil.mp heq.symm
        subst h1
        simp at hmap
    | cons c xs =>
      simp only [List.map_cons, List.isPrefixOf, Bool.and_eq_true, beq_iff_eq]
      constructor
      · rintro ⟨rfl, hp⟩
        obtain ⟨mid, post, rfl, hmap⟩ := ih.mp hp
        exact ⟨c :: mid, post, rfl, by simp [hmap]⟩
      · rintro ⟨mid, post, heq, hmap⟩
        cases mid with
        | nil => simp at hmap
        | cons m ms =>
          injection heq with h1 h2
          subst h1
          simp only [List.map_cons, List.cons.injEq] at hmap
          obtain ⟨h3, h4⟩ := hmap
          exact ⟨h3.symm, ih.mpr ⟨ms, post, h2, h4⟩⟩

theorem suffixFindall_iff : ∀ (t : List Char),
    suffixFindall t = true ↔ SuffixGrammarFound t := by
  intro t
  induction t with
  | nil =>
    constructor
    · intro h; simp [suffixFindall] at h
    · rintro ⟨pre, mid, post, heq, hmem⟩
      obtain ⟨h1, h2⟩ := List.append_eq_nil.mp heq.symm
      obtain ⟨h3, h4⟩ := List.append_eq_nil.mp h1
      subst h4
      simp only [List.map_nil] at hmem
      exact absurd hmem (by decide)
  | cons c rest ih =>
    rw [suffixFindall, Bool.or_eq_true, List.any_eq_true]
    constructor
    · rintro (⟨w, hw, hpref⟩ | h)
      · obtain ⟨mid, post, heq, hmap⟩ := isPrefixOf_map_iff.mp hpref
        exact ⟨[], mid, post, by simp [heq], hmap ▸ hw⟩
      · obtain ⟨pre, mid, post, heq, hmem⟩ := ih.mp h
        exact ⟨c :: pre, mid, post, by simp [heq], hmem⟩
    · rintro ⟨pre, mid, post, heq, hmem⟩
      cases pre with
      | nil =>
        left
        refine ⟨mid.map Char.toLower, hmem, ?_⟩
        apply isPrefixOf_map_iff.mpr
        exact ⟨mid, post, by simpa using heq, rfl⟩
      | cons p pre2 =>
        right
        apply ih.mpr
        have heq2 : c :: rest = p :: (pre2 ++ mid ++ post) := by simpa using heq
        injection heq2 with h1 h2
        exact ⟨pre2, mid, post, h2, hmem⟩

theorem splitComma_ne_nil : ∀ (l : List Char), splitComma l ≠ [] := by
  intro l
  cases l with
  | nil => simp [splitComma]
  | cons c rest =>
    rw [splitComma]
    by_cases hc : c = ','
    · simp [hc]
    · rw [if_neg hc]
      split
      · simp
      · simp

theorem splitComma_length : ∀ (l : List Char),
    (splitComma l).length = l.count ',' + 1 := by
  intro l
  induction l with
  | nil => simp [splitComma]
  | cons c rest ih =>
    rw [splitComma]
    by_cases hc : c = ','
    · subst hc
      simp [List.count_cons, ih]
    · rw [if_neg hc]
      cases h : splitComma rest with
      | nil => exact absurd h (splitComma_ne_nil rest)
      | cons p ps =>
        rw [h] at ih
        simp only [List.length_cons] at ih ⊢
        simp [List.count_cons, hc, ih]

/-! ### Helpers about validation outcomes -/

theorem ite_report {α : Type} (rep : List FieldError) (a : α) (h : rep ≠ []) :
    (if rep = [] then VOutcome.ok a else VOutcome.invalid rep) = VOutcome.invalid rep :=
  if_neg h

theorem party_validate_ne_crash (raw : RawParty) (m : String) :
    Party.validate raw ≠ .crash m := by
  simp only [Party.validate]
  split <;> simp

theorem contactDetail_validate_ne_crash (raw : RawContactDetail) (m : String) :
    ContactDetail.validate raw ≠ .crash m := by
  simp only [ContactDetail.validate]
  split <;> simp

theorem personIdBlock_validate_ne_crash (raw : RawPersonIdBlock) (m : String) :
    PersonIdBlock.validate raw ≠ .crash m := by
  simp only [PersonIdBlock.validate]
  split <;> simp

theorem extStrModel_ne_crash (errs : String → List FieldError) (s m : String) :
    extStrModel errs s ≠ .crash m := by
  rw [extStrModel]
  split <;> simp

theorem elemwiseAux_ok {α β : Type} (fname : String) (f : α → VOutcome β)
    (hf : ∀ x m, f x ≠ .crash m) : ∀ (i : Nat) (xs : List α),
    ∃ p, elemwiseAux fname f i xs = .ok p := by
  intro i xs
  induction xs generalizing i with
  | nil => exact ⟨([], []), rfl⟩
  | cons x xs ih =>
    obtain ⟨⟨bs, es⟩, hp⟩ := ih (i + 1)
    rw [elemwiseAux]
    cases hx : f x with
    | crash m => exact absurd hx (hf x m)
    | ok b => exact ⟨(b :: bs, es), by simp [hp]⟩
    | invalid r =>
      exact ⟨(bs, (r.map fun fe => ⟨fname :: toString i :: fe.loc, fe.msg⟩) ++ es),
        by simp [hp]⟩

theorem dfltListField_ok {α β : Type} (fname : String) (f : α → VOutcome β)
    (hf : ∀ x m, f x ≠ .crash m) (o : Option (List α)) :
    ∃ p, dfltListField fname f o = .ok p := by
  cases o with
  | none => exact ⟨(some [], []), rfl⟩
  | some xs =>
    obtain ⟨⟨bs, es⟩, hp⟩ := elemwiseAux_ok fname f hf 0 xs
    exact ⟨(some bs, es), by simp [dfltListField, hp]⟩

theorem idsField_ok (o : Option (Option RawPersonIdBlock)) :
    ∃ p, idsField o = .ok p := by
  match o with
  | none => exact ⟨(none, []), rfl⟩
  | some none => exact ⟨(none, []), rfl⟩
  | some (some b) =>
    cases hb : PersonIdBlock.validate b with
    | ok v => exact ⟨(some v, []), by simp [idsField, hb]⟩
    | invalid r =>
      exact ⟨(none, r.map fun fe => ⟨"ids" :: fe.loc, fe.msg⟩), by simp [idsField, hb]⟩
    | crash m => exact absurd hb (personIdBlock_validate_ne_crash b m)

theorem validate_social_ok_eq {v w : String} (h : validate_social v = .ok w) : w = v := by
  by_cases h1 : ('\n' ∈ v.data ∨ '\r' ∈ v.data)
  · simp [validate_social, validate_str_no_newline, h1] at h
  · by_cases h2 : (pyStartswith "http://" v = true ∨ pyStartswith "https://" v = true ∨
      pyStartswith "@" v = true)
    · simp [validate_social, validate_str_no_newline, h1, h2] at h
    · simp [validate_social, validate_str_no_newline, h1, h2] at h
      exact h.symm

/-- the membership tuple of `check_executives_have_end_date` begins with the
attribute lookup `OfficeType.GOVERNOR`, which raises `AttributeError` since
`OfficeType` has no such member; hence the root validator raises on every
input. -/
theorem check_exec_always_raises (v : RoleValues) :
    check_executives_have_end_date v = .error (.attributeError "GOVERNOR") := rfl

/-! ### Claim theorems -/

/-- C1: the claim says the executive end-date rule passes a GOVERNOR role
whose `end_date` is present and rejects one whose `end_date` is absent with
the message "end_date is required for executive roles".  The code instead
raises an uncaught `AttributeError("GOVERNOR")` in both situations, because
the membership tuple looks the executive members up on `OfficeType`, whose
only members are DISTRICT, CAPITOL and PRIMARY (the executive members
belong to `RoleType`). -/
theorem c1_exec_rule_raises_attribute_error :
    check_executives_have_end_date
      ⟨some "", some "2024-01-01", some .GOVERNOR, some "1",
        some "ocd-jurisdiction/country:us/government", some ""⟩ =
      .error (.attributeError "GOVERNOR") ∧
    check_executives_have_end_date
      ⟨some "", some "", some .GOVERNOR, some "1",
        some "ocd-jurisdiction/country:us/government", some ""⟩ =
      .error (.attributeError "GOVERNOR") := ⟨rfl, rfl⟩

/-- C2: the claim says Role validation is total — every raw input yields
either a typed record or an aggregated error report.  On a raw Role whose
every field-level rule passes (second conjunct: the field report is empty),
validation nevertheless terminates with the uncaught
`AttributeError("GOVERNOR")` raised by the root validator. -/
theorem c2_role_validation_uncaught_exception :
    Role.validate
      ⟨none, some "2024-01-01", some "governor", some "1",
        some "ocd-jurisdiction/country:us/government", some ""⟩ extTrivial =
      .crash "GOVERNOR" ∧
    (Role.fieldStage
      ⟨none, some "2024-01-01", some "governor", some "1",
        some "ocd-jurisdiction/country:us/government", some ""⟩ extTrivial).2 = [] :=
  ⟨rfl, rfl⟩

/-- C7 (counterexample): the claim says the cross-field executive rule is
evaluated only after every field-level rule has passed, so an input with a
failing field-level rule yields a report without the cross-field error.  On
a Role whose `district` fails the no-newline rule (first conjunct: the
field report is non-empty), the outcome is not a report at all but the
uncaught exception raised inside the cross-field validator — so the
cross-field validator did run despite the field failure. -/
theorem c7_cross_field_runs_despite_field_failure :
    (Role.fieldStage
      ⟨none, none, some "governor", some "bad\ndistrict",
        some "ocd-jurisdiction/country:us/government", some ""⟩ extTrivial).2 ≠ [] ∧
    Role.validate
      ⟨none, none, some "governor", some "bad\ndistrict",
        some "ocd-jurisdiction/country:us/government", some ""⟩ extTrivial =
      .crash "GOVERNOR" := ⟨by decide, rfl⟩

/-- C7 (amended): pydantic v1 runs a post root validator even when the
field pass failed (`skip_on_failure=False`), so the cross-field validator
is reached on every Role input — with or without field-level failures — and
on this code it raises `AttributeError("GOVERNOR")` there, so every Role
validation ends in that uncaught exception instead of a report. -/
theorem c7_every_role_validation_reaches_cross_field (raw : RawRole) (ext : Externals) :
    Role.validate raw ext = .crash "GOVERNOR" := rfl

/-- C10: a `ContactDetail` with `voice` omitted validates successfully with
`voice` normalised to the empty string (the phone check is skipped for the
default), while the same record with `voice` supplied as the empty string
fails the phone check — omission and explicit supply of the same value
differ in outcome. -/
theorem c10_omitted_vs_supplied_voice :
    ContactDetail.validate ⟨some "District Office", none, none, none⟩ =
      .ok ⟨.DISTRICT, "", "", ""⟩ ∧
    ContactDetail.validate ⟨some "District Office", none, some "", none⟩ =
      .invalid [⟨["voice"], "invalid phone number"⟩] := ⟨rfl, rfl⟩

/-- C4 (counterexample): the claim says a supplied `voice = ""` passes
validation because the phone check only runs on non-empty values; in the
code the check runs on every supplied value, and the empty string fails the
phone grammar. -/
theorem c4_supplied_empty_voice_fails :
    ContactDetail.validate ⟨some "District Office", some "12 Main St", some "", none⟩ =
      .invalid [⟨["voice"], "invalid phone number"⟩] := rfl

/-- C3 (counterexample): the claim says a Person whose `party` or `roles`
list is the empty sequence fails validation with a structural error; in the
code `list[Party]`/`list[Role]` carry no minimum length, and a Person with
`party = []` and `roles = []` validates successfully. -/
theorem c3_empty_party_roles_pass :
    Person.validate
      { id := some "ocd-person/11111111-2222-3333-4444-555555555555",
        name := some "Smith", party := some [], roles := some [] } extTrivial =
      .ok ⟨"ocd-person/11111111-2222-3333-4444-555555555555", "Smith",
        "", "", "", "", "", "", "", "", "", "",
        [], [], [], [], [], none, [], [], []⟩ := rfl

/-- C8 (counterexample): the claim says a Party whose `name` is the empty
string fails validation; the code only attaches the no-newline rule to
`name`, and the empty string passes it. -/
theorem c8_empty_party_name_accepted :
    Party.validate ⟨none, none, some ""⟩ = .ok ⟨"", "", ""⟩ := rfl

/-- C6 (counterexample): the claim says the phone validator accepts exactly
the strings of `^(1-)?\d{3}-\d{3}-\d{4}( ext\. \d+)?$` with a literal dot
after `ext`.  The dot in the source pattern is unescaped, so
"555-123-4567 extx 5" is accepted by the code although the claimed grammar
rejects it. -/
theorem c6_unescaped_dot_counterexample :
    validate_phone "555-123-4567 extx 5" = .ok "555-123-4567 extx 5" ∧
    phoneClaimGrammar "555-123-4567 extx 5" = false := ⟨rfl, rfl⟩

/-- C6 (amended): the phone validator accepts a string exactly when it
matches `^(1-)?\d{3}-\d{3}-\d{4}( ext. \d+)?$` under Python semantics: the
unescaped dot after `ext` matches any single character except a newline,
and `$` also matches just before one trailing newline. -/
theorem c6_phone_grammar_amended (s : String) :
    validate_phone s = .ok s ↔ PhoneAmendedSpec s :=
  validate_phone_ok_iff.trans PHONE_RE_match_iff

/-- C3 (amended): a Person whose `roles` field is missing always fails
validation with the structural error "field required" on `roles` (and also
on `party` when `party` is missing too) — with no Role to validate, nothing
can crash.  A Person whose `party` field is missing fails with
"field required" on `party` when `roles` is the empty list; but when
`party` is missing and `roles` is supplied non-empty, validation returns no
report at all — it terminates with the uncaught exception raised inside the
Role root validator.  An empty list itself passes (by the counterexample,
no minimum length is enforced). -/
theorem c3_missing_party_roles_required :
    (∀ (raw : RawPerson) (ext : Externals), raw.roles = none →
      ∃ r, Person.validate raw ext = .invalid r ∧
        FieldError.mk ["roles"] "field required" ∈ r ∧
        (raw.party = none → FieldError.mk ["party"] "field required" ∈ r)) ∧
    (∀ (raw : RawPerson) (ext : Externals), raw.party = none →
      raw.roles = some [] →
      ∃ r, Person.validate raw ext = .invalid r ∧
        FieldError.mk ["party"] "field required" ∈ r) ∧
    (∀ (raw : RawPerson) (ext : Externals) (x : RawRole) (xs : List RawRole),
      raw.party = none → raw.roles = some (x :: xs) →
      Person.validate raw ext = .crash "GOVERNOR") := by
  refine ⟨?_, ?_, ?_⟩
  · intro raw ext hr
    obtain ⟨⟨cd, ecd⟩, hcd⟩ := dfltListField_ok "contact_details" ContactDetail.validate
      contactDetail_validate_ne_crash raw.contact_details
    obtain ⟨⟨lk, elk⟩, hlk⟩ := dfltListField_ok "links" (extStrModel ext.linkErrors)
      (extStrModel_ne_crash ext.linkErrors) raw.links
    obtain ⟨⟨onv, eon⟩, hon⟩ := dfltListField_ok "other_names"
      (extStrModel ext.otherNameErrors) (extStrModel_ne_crash ext.otherNameErrors)
      raw.other_names
    obtain ⟨⟨idsv, eids⟩, hids⟩ := idsField_ok raw.ids
    obtain ⟨⟨oiv, eoi⟩, hoi⟩ := dfltListField_ok "other_identifiers"
      (extStrModel ext.otherIdentifierErrors)
      (extStrModel_ne_crash ext.otherIdentifierErrors) raw.other_identifiers
    obtain ⟨⟨srcv, esrc⟩, hsrc⟩ := dfltListField_ok "sources" (extStrModel ext.linkErrors)
      (extStrModel_ne_crash ext.linkErrors) raw.sources
    cases hp : raw.party with
    | none =>
      rw [Person.validate, Person.run, hp, hr]
      simp only [reqListField, exStep, hcd, hlk, hon, hids, hoi, hsrc]
      exact ⟨_, ite_report _ _ (by simp), by simp, fun _ => by simp⟩
    | some ps =>
      obtain ⟨⟨pbs, pes⟩, hpel⟩ :=
        elemwiseAux_ok "party" Party.validate party_validate_ne_crash 0 ps
      rw [Person.validate, Person.run, hp, hr]
      simp only [reqListField, exStep, hpel, hcd, hlk, hon, hids, hoi, hsrc]
      exact ⟨_, ite_report _ _ (by simp), by simp, fun hpc => absurd hpc (by simp)⟩
  · intro raw ext hp hroles
    obtain ⟨⟨cd, ecd⟩, hcd⟩ := dfltListField_ok "contact_details" ContactDetail.validate
      contactDetail_validate_ne_crash raw.contact_details
    obtain ⟨⟨lk, elk⟩, hlk⟩ := dfltListField_ok "links" (extStrModel ext.linkErrors)
      (extStrModel_ne_crash ext.linkErrors) raw.links
    obtain ⟨⟨onv, eon⟩, hon⟩ := dfltListField_ok "other_names"
      (extStrModel ext.otherNameErrors) (extStrModel_ne_crash ext.otherNameErrors)
      raw.other_names
    obtain ⟨⟨idsv, eids⟩, hids⟩ := idsField_ok raw.ids
    obtain ⟨⟨oiv, eoi⟩, hoi⟩ := dfltListField_ok "other_identifiers"
      (extStrModel ext.otherIdentifierErrors)
      (extStrModel_ne_crash ext.otherIdentifierErrors) raw.other_identifiers
    obtain ⟨⟨srcv, esrc⟩, hsrc⟩ := dfltListField_ok "sources" (extStrModel ext.linkErrors)
      (extStrModel_ne_crash ext.linkErrors) raw.sources
    rw [Person.validate, Person.run, hp, hroles]
    simp only [reqListField, exStep, elemwiseAux, hcd, hlk, hon, hids, hoi, hsrc]
    exact ⟨_, ite_report _ _ (by simp), by simp⟩
  · intro raw ext x xs hp hroles
    rw [Person.validate, Person.run, hp, hroles]
    rfl

/-- C3 witness. -/
theorem c3_missing_party_roles_required_witness :
    ∃ r, Person.validate
      { id := some "ocd-person/11111111-2222-3333-4444-555555555555",
        name := some "Jones", roles := some [] } extTrivial = .invalid r ∧
      FieldError.mk ["party"] "field required" ∈ r :=
  c3_missing_party_roles_required.2.1
    { id := some "ocd-person/11111111-2222-3333-4444-555555555555",
      name := some "Jones", roles := some [] } extTrivial rfl rfl

/-- C4 (amended): the phone check on `voice`/`fax` runs on every supplied
value, so supplying the empty string fails with "invalid phone number"; the
check is skipped only when the field is omitted (the default empty string
is not validated — established by the C10 theorem). -/
theorem c4_phone_check_runs_on_supplied (raw : RawContactDetail) :
    (raw.voice = some "" →
      ∃ r, ContactDetail.validate raw = .invalid r ∧
        FieldError.mk ["voice"] "invalid phone number" ∈ r) ∧
    (raw.fax = some "" →
      ∃ r, ContactDetail.validate raw = .invalid r ∧
        FieldError.mk ["fax"] "invalid phone number" ∈ r) := by
  constructor
  · intro hv
    have hvr : checkStrField "voice" "" [validate_phone] raw.voice =
        (none, [⟨["voice"], "invalid phone number"⟩]) := by rw [hv]; rfl
    rw [ContactDetail.validate]
    simp only [hvr]
    exact ⟨_, ite_report _ _ (by simp), by simp⟩
  · intro hf
    have hfr : checkStrField "fax" "" [validate_phone] raw.fax =
        (none, [⟨["fax"], "invalid phone number"⟩]) := by rw [hf]; rfl
    rw [ContactDetail.validate]
    simp only [hfr]
    exact ⟨_, ite_report _ _ (by simp), by simp⟩

/-- C4 witness. -/
theorem c4_phone_check_runs_on_supplied_witness :
    ∃ r, ContactDetail.validate ⟨some "Capitol Office", none, some "", none⟩ =
      .invalid r ∧ FieldError.mk ["voice"] "invalid phone number" ∈ r :=
  (c4_phone_check_runs_on_supplied ⟨some "Capitol Office", none, some "", none⟩).1 rfl

/-- C8 (amended): a Party name containing a newline or carriage return
fails validation with the no-newline error, while the empty string is
accepted (there is no non-empty rule on `name`). -/
theorem c8_party_name_newline_rule :
    (∀ (raw : RawParty) (nm : String), raw.name = some nm →
      ('\n' ∈ nm.data ∨ '\r' ∈ nm.data) →
      ∃ r, Party.validate raw = .invalid r ∧
        FieldError.mk ["name"] "contains newline" ∈ r) ∧
    Party.validate ⟨none, none, some ""⟩ = .ok ⟨"", "", ""⟩ := by
  constructor
  · intro raw nm hnm hbad
    have hnr : checkReqStrField "name" [validate_str_no_newline] raw.name =
        (none, [⟨["name"], "contains newline"⟩]) := by
      rw [hnm]
      simp [checkReqStrField, runValidators, validate_str_no_newline, hbad]
    rw [Party.validate]
    simp only [hnr]
    exact ⟨_, ite_report _ _ (by simp), by simp⟩
  · rfl

/-- C8 witness. -/
theorem c8_party_name_newline_rule_witness :
    ∃ r, Party.validate ⟨none, none, some "Demo\ncratic"⟩ = .invalid r ∧
      FieldError.mk ["name"] "contains newline" ∈ r :=
  c8_party_name_newline_rule.1 ⟨none, none, some "Demo\ncratic"⟩ "Demo\ncratic" rfl
    (Or.inl (by decide))

/-- C5: the name-comma rule of `Person`.  With exactly one comma the name
passes exactly when the suffix grammar of `SUFFIX_RE` matches somewhere in
the text after the comma (case-insensitively); with two or more commas it
fails with "too many commas, check if name is mangled"; with no comma it
always passes. -/
theorem c5_name_comma_rule (s : String) :
    (s.data.count ',' = 1 →
      (no_bad_comma s = .ok s ↔ SuffixGrammarFound ((splitComma s.data).getD 1 []))) ∧
    (2 ≤ s.data.count ',' →
      no_bad_comma s = .error "too many commas, check if name is mangled") ∧
    (s.data.count ',' = 0 → no_bad_comma s = .ok s) := by
  have hlen := splitComma_length s.data
  refine ⟨?_, ?_, ?_⟩
  · intro h1
    rw [h1] at hlen
    simp only [no_bad_comma]
    rw [if_neg (by omega)]
    by_cases hf : suffixFindall ((splitComma s.data).getD 1 []) = true
    · rw [if_neg (fun hcon => by rw [hf] at hcon; exact absurd hcon.2 (by simp))]
      exact iff_of_true rfl (suffixFindall_iff _ |>.mp hf)
    · rw [if_pos ⟨by omega, by simpa using hf⟩]
      exact iff_of_false (by simp) (fun h => hf (suffixFindall_iff _ |>.mpr h))
  · intro h2
    simp only [no_bad_comma]
    rw [if_pos (by omega)]
  · intro h0
    rw [h0] at hlen
    simp only [no_bad_comma]
    rw [if_neg (by omega), if_neg (by simp [hlen])]

/-- C5 witness. -/
theorem c5_name_comma_rule_witness :
    no_bad_comma "Smith, Jones, III" =
      .error "too many commas, check if name is mangled" :=
  (c5_name_comma_rule "Smith, Jones, III").2.1 (by decide)

/-- C9: a supplied social-handle value passes `validate_social` exactly
when it contains no newline and does not start with `http://`, `https://`
or `@`; the same holds at field level for a `PersonIdBlock` with the value
supplied as `twitter`. -/
theorem c9_social_handle_rule (v : String) :
    (validate_social v = .ok v ↔ SocialClaimOk v) ∧
    (PersonIdBlock.validate ⟨some v, none, none, none⟩ = .ok ⟨v, "", "", ""⟩ ↔
      SocialClaimOk v) := by
  have hmain : validate_social v = .ok v ↔ SocialClaimOk v := by
    by_cases h1 : ('\n' ∈ v.data ∨ '\r' ∈ v.data)
    · simp [validate_social, validate_str_no_newline, SocialClaimOk, h1]
    · by_cases h2 : (pyStartswith "http://" v = true ∨ pyStartswith "https://" v = true ∨
        pyStartswith "@" v = true)
      · simp [validate_social, validate_str_no_newline, SocialClaimOk, h1, h2]
      · simp [validate_social, validate_str_no_newline, SocialClaimOk, h1, h2]
  refine ⟨hmain, ?_⟩
  cases hs : validate_social v with
  | error e =>
    have hnot : ¬ SocialClaimOk v := by
      intro hOk
      have h2 := hmain.mpr hOk
      rw [hs] at h2
      exact absurd h2 (by simp)
    have hres : PersonIdBlock.validate ⟨some v, none, none, none⟩ =
        .invalid [⟨["twitter"], e⟩] := by
      simp [PersonIdBlock.validate, checkStrField, runValidators, hs]
    rw [hres]
    exact iff_of_false (by simp) hnot
  | ok w =>
    have hw : w = v := validate_social_ok_eq hs
    subst hw
    have hres : PersonIdBlock.validate ⟨some w, none, none, none⟩ =
        .ok ⟨w, "", "", ""⟩ := by
      simp [PersonIdBlock.validate, checkStrField, runValidators, hs]
    rw [hres]
    exact iff_of_true rfl (hmain.mp hs)

end OSPeople
